import Mathlib

/-!
# Verification of the k-signals reactive state engine

This file is a shallow embedding of `src/index.ts` of the k-signals
library: signals, effects, computed signals, batching, watchers and the
recursion guard.  JavaScript values are modelled by `Val` (with distinct
`NaN`, `-0` and `+0` so that both strict equality `===` and `Object.is`
can be expressed faithfully).  The module-level mutable globals
(`currentEffect`, `isInBatch`, `batchDeps`, `recursionLevel`) together
with the signal / effect heaps form the state `RState`.  Client callbacks
are deep-embedded as `Cmd` (effect bodies) and `Expr` (computed
derivations); the mutually recursive runtime functions
(`EffectImpl.exec`, the `value` setter, `batch`, the flush loop) are the
arms of the single fuel-indexed interpreter `step`.  Ghost logs
(`execCalls`, `cbRuns`, `guardFires`, `disposeFires`) record events the
specification talks about without influencing the modelled behaviour.
-/

/-- JavaScript runtime values, with `NaN` and `-0` kept apart from
ordinary numbers so the two JS equalities are expressible.  `num 0`
denotes `+0`. -/
inductive Val where
  | undef
  | nan
  | negZero
  | num (n : Int)
  | str (s : String)
  | bool (b : Bool)
deriving DecidableEq, Repr

/-- JavaScript strict equality `===`: `NaN === x` is always false and
`-0 === +0` is true; otherwise structural. -/
def strictEq : Val → Val → Bool
  | .nan, _ => false
  | _, .nan => false
  | .negZero, .num n => n == 0
  | .num n, .negZero => n == 0
  | a, b => a == b

/-- `Object.is` semantics: `NaN` equals `NaN`, `-0` differs from `+0`;
otherwise structural. -/
def objectIs : Val → Val → Bool
  | .nan, .nan => true
  | .nan, _ => false
  | _, .nan => false
  | .negZero, .num _ => false
  | .num _, .negZero => false
  | a, b => a == b

/-- JavaScript `+` restricted to the shapes the development uses:
number addition, string concatenation, anything else is `NaN`. -/
def jsAdd : Val → Val → Val
  | .num a, .num b => .num (a + b)
  | .str a, .str b => .str (a ++ b)
  | _, _ => .nan

/-- `x + 1` on a stored value, used by self-feedback effect bodies. -/
def incVal : Val → Val
  | .num n => .num (n + 1)
  | .negZero => .num 1
  | _ => .nan

/-- Errors that can cross the interpreter: a user exception thrown by a
callback, or the library's `RecursionError` carrying the depth reached. -/
inductive Err where
  | userErr
  | recursionError (depth : Int)
deriving DecidableEq, Repr

/-- Deep-embedded compute callbacks of `computed`: pure reads (which
subscribe through the signal getter) and possible throws. -/
inductive Expr where
  | const (v : Val)
  | readS (sid : Nat)
  | addE (a b : Expr)
  | throwE
  | throwIfNeg (sid : Nat)
deriving DecidableEq, Repr

/-- Deep-embedded effect callbacks: signal reads and writes, sequencing,
throwing, and nested `batch` calls. -/
inductive Cmd where
  | skip
  | seq (a b : Cmd)
  | readS (sid : Nat)
  | writeS (sid : Nat) (v : Val)
  | incS (sid : Nat)
  | throwC
  | batchC (body : Cmd)
deriving DecidableEq, Repr

/-- A signal: stored value plus the set of dependent effects
(`sig[DEPS]`), kept as a duplicate-free list in insertion order, the
iteration order of a JS `Set`. -/
structure SignalImpl where
  value : Val
  deps : List Nat
deriving DecidableEq, Repr

/-- What an effect's callback is: a plain command (effects and watchers)
or the recurring body of `computed` (teardown, recompute, guarded
assignment to the internal signal). -/
inductive EffKind where
  | plain (cb : Cmd)
  | comp (compute : Expr) (internalSid : Nat)
deriving DecidableEq, Repr

/-- An effect (`EffectImpl`): activity flag, watcher flag, whether its
subscription set has been frozen by `freezeSet` (watchers), the
subscription set `eff[SUBS]`, presence of an `onDispose` callback, and
its callback. -/
structure EffectImpl where
  isActive : Bool
  isWatcher : Bool
  subsFrozen : Bool
  subs : List Nat
  hasOnDispose : Bool
  kind : EffKind
deriving DecidableEq, Repr

/-- The whole runtime state: the signal and effect heaps (ids are list
indices) and the module-level globals, plus ghost logs: `execCalls`
records every `exec()` invocation (newest first), `cbRuns` every actual
callback run, `guardFires` how often the recursion guard fired, and
`disposeFires` every `onDispose` invocation. -/
structure RState where
  signals : List SignalImpl
  effects : List EffectImpl
  currentEffect : Option Nat
  isInBatch : Bool
  batchDeps : List Nat
  recursionLevel : Int
  execCalls : List Nat
  cbRuns : List Nat
  guardFires : Nat
  disposeFires : List Nat
deriving DecidableEq, Repr

/-- `maxRecursionLevel` of the source. -/
def maxRecursionLevel : Int := 100

def defaultSignal : SignalImpl := ⟨.undef, []⟩

def defaultEffect : EffectImpl := ⟨false, false, false, [], false, .plain .skip⟩

def sigAt (st : RState) (sid : Nat) : SignalImpl := st.signals.getD sid defaultSignal

def effAt (st : RState) (eid : Nat) : EffectImpl := st.effects.getD eid defaultEffect

def sigValueAt (st : RState) (sid : Nat) : Val := (sigAt st sid).value

def sigDepsAt (st : RState) (sid : Nat) : List Nat := (sigAt st sid).deps

def subsAt (st : RState) (eid : Nat) : List Nat := (effAt st eid).subs

/-- JS `Set.add`: append unless already present (keeps insertion order). -/
def insertD (l : List Nat) (a : Nat) : List Nat := if a ∈ l then l else l ++ [a]

def updateSig (st : RState) (sid : Nat) (f : SignalImpl → SignalImpl) : RState :=
  { st with signals := st.signals.set sid (f (sigAt st sid)) }

def updateEff (st : RState) (eid : Nat) (f : EffectImpl → EffectImpl) : RState :=
  { st with effects := st.effects.set eid (f (effAt st eid)) }

/-- `eff[SUBS].add sid` — a no-op when the subscription set was frozen
by `freezeSet` (the watcher case). -/
def effSubsAdd (st : RState) (eid sid : Nat) : RState :=
  updateEff st eid (fun e => if e.subsFrozen then e else { e with subs := insertD e.subs sid })

/-- The `value` getter: if a non-watcher computation is current, register
the symmetric edge, then return the stored value. -/
def sigGet (st : RState) (sid : Nat) : RState × Val :=
  let v := (sigAt st sid).value
  match st.currentEffect with
  | none => (st, v)
  | some eid =>
    if (effAt st eid).isWatcher then (st, v)
    else
      let st₁ := updateSig st sid (fun s => { s with deps := insertD s.deps eid })
      (effSubsAdd st₁ eid sid, v)

/-- `peek()`: the stored value, no subscription. -/
def peek (st : RState) (sid : Nat) : Val := (sigAt st sid).value

/-- Evaluation of a compute callback.  Reads go through the getter (and
hence subscribe); no signal writes are possible inside `Expr`. -/
def evalExpr (st : RState) : Expr → RState × Except Err Val
  | .const v => (st, .ok v)
  | .readS sid =>
    let p := sigGet st sid
    (p.1, .ok p.2)
  | .addE a b =>
    match evalExpr st a with
    | (st₁, .error e) => (st₁, .error e)
    | (st₁, .ok va) =>
      match evalExpr st₁ b with
      | (st₂, .error e) => (st₂, .error e)
      | (st₂, .ok vb) => (st₂, .ok (jsAdd va vb))
  | .throwE => (st, .error .userErr)
  | .throwIfNeg sid =>
    let p := sigGet st sid
    match p.2 with
    | .num n => if n < 0 then (p.1, .error .userErr) else (p.1, .ok p.2)
    | v => (p.1, .ok v)

/-- The teardown loop at the head of the computed recurring body:
for each subscription, delete the back edge and the subscription itself
(the latter silently rejected on a frozen set). -/
def teardownSubs (st : RState) (eid : Nat) : RState :=
  let st₁ := (effAt st eid).subs.foldl
    (fun acc s => updateSig acc s (fun sg => { sg with deps := sg.deps.filter (· ≠ eid) })) st
  updateEff st₁ eid (fun e => if e.subsFrozen then e else { e with subs := [] })

/-- Entering the active part of `exec()`: push `currentEffect`, increment
`recursionLevel`, and log the callback run. -/
def execEnter (st : RState) (eid : Nat) : RState :=
  { st with currentEffect := some eid, recursionLevel := st.recursionLevel + 1,
            cbRuns := eid :: st.cbRuns }

/-- The `finally` block of `exec()`: decrement `recursionLevel` and
restore the saved `currentEffect`. -/
def execExit (prev : Option Nat) (st : RState) : RState :=
  { st with recursionLevel := st.recursionLevel - 1, currentEffect := prev }

/-- Direct assignment to the `VALUE` slot (bypasses the setter). -/
def storeValue (st : RState) (sid : Nat) (v : Val) : RState :=
  updateSig st sid (fun s => { s with value := v })

/-- Queue dependents in `batchDeps` (a JS `Set`, so dedup-append). -/
def addBatchDeps (st : RState) (deps : List Nat) : RState :=
  { st with batchDeps := deps.foldl insertD st.batchDeps }

/-- One runtime entry point of the mutually recursive core. -/
inductive RTask where
  | runCmd (c : Cmd)
  | execEff (eid : Nat)
  | execList (l : List Nat)
  | setVal (sid : Nat) (v : Val)
  | flushFrom (i : Nat)
  | batchT (body : Cmd)
deriving DecidableEq, Repr

/-- The fuel-indexed interpreter for the mutually recursive runtime:

* `runCmd` runs a deep-embedded effect callback;
* `execEff` is `EffectImpl.exec` (recursion guard, activity check,
  push / increment, run the callback — either a plain command or the
  computed recurring body with its teardown, strict-inequality guard and
  exception-swallowing `catch` — then the `finally` decrement / restore);
* `execList` is the dependents `forEach` of a non-batched write;
* `setVal` is the `value` setter (the `Object.is` guard, store, snapshot
  of the dependents, queue-or-run);
* `flushFrom` is `batchDeps.forEach` (a JS `Set.forEach` also visits
  elements appended during the iteration, hence the index-based loop);
* `batchT` is `batch` (nested call: just run the body; outermost: set
  the flag, run, flush, clear — with no `try`/`finally`). -/
def step : Nat → RTask → RState → Option (RState × Option Err)
  | 0, _, _ => none
  | n + 1, t, st =>
    match t with
    | .runCmd .skip => some (st, none)
    | .runCmd (.seq a b) =>
      match step n (.runCmd a) st with
      | some (st₁, none) => step n (.runCmd b) st₁
      | other => other
    | .runCmd (.readS sid) => some ((sigGet st sid).1, none)
    | .runCmd (.writeS sid v) => step n (.setVal sid v) st
    | .runCmd (.incS sid) =>
      let p := sigGet st sid
      step n (.setVal sid (incVal p.2)) p.1
    | .runCmd .throwC => some (st, some .userErr)
    | .runCmd (.batchC body) => step n (.batchT body) st
    | .execEff eid =>
      let st₀ := { st with execCalls := eid :: st.execCalls }
      if maxRecursionLevel ≤ st₀.recursionLevel then
        some ({ st₀ with recursionLevel := 0, guardFires := st₀.guardFires + 1 },
              some (.recursionError st₀.recursionLevel))
      else if (effAt st₀ eid).isActive then
        let prev := st₀.currentEffect
        let st₁ := execEnter st₀ eid
        match (effAt st₀ eid).kind with
        | .plain cb =>
          match step n (.runCmd cb) st₁ with
          | some (st₂, err) => some (execExit prev st₂, err)
          | none => none
        | .comp compute isid =>
          let st₂ := teardownSubs st₁ eid
          match evalExpr st₂ compute with
          | (st₃, .error _) => some (execExit prev st₃, none)
          | (st₃, .ok nv) =>
            if strictEq nv (sigAt st₃ isid).value then
              some (execExit prev st₃, none)
            else
              match step n (.setVal isid nv) st₃ with
              | some (st₄, _) => some (execExit prev st₄, none)
              | none => none
      else some (st₀, none)
    | .execList [] => some (st, none)
    | .execList (e :: rest) =>
      match step n (.execEff e) st with
      | some (st₁, none) => step n (.execList rest) st₁
      | other => other
    | .setVal sid v =>
      let sg := sigAt st sid
      if objectIs v sg.value then some (st, none)
      else
        let st₁ := storeValue st sid v
        if st₁.isInBatch then some (addBatchDeps st₁ sg.deps, none)
        else step n (.execList sg.deps) st₁
    | .flushFrom i =>
      if i < st.batchDeps.length then
        match step n (.execEff (st.batchDeps.getD i 0)) st with
        | some (st₁, none) => step n (.flushFrom (i + 1)) st₁
        | other => other
      else some (st, none)
    | .batchT body =>
      if st.isInBatch then step n (.runCmd body) st
      else
        let st₁ := { st with isInBatch := true }
        match step n (.runCmd body) st₁ with
        | some (st₂, none) =>
          match step n (.flushFrom 0) st₂ with
          | some (st₃, none) =>
            some ({ st₃ with batchDeps := [], isInBatch := false }, none)
          | other => other
        | other => other

/-- `signal(v)`: append a fresh signal, return its id. -/
def signalCtor (st : RState) (v : Val) : RState × Nat :=
  ({ st with signals := st.signals ++ [⟨v, []⟩] }, st.signals.length)

/-- `effect(cb, onDispose?, isActive?)` / `new EffectImpl`: append the
effect and immediately call `exec()` (which no-ops when inactive). -/
def effectCtor (fuel : Nat) (st : RState) (cb : Cmd) (hasOnDispose : Bool)
    (isActive : Bool) : Option (RState × Option Err × Nat) :=
  let eid := st.effects.length
  let st₁ := { st with effects :=
    st.effects ++ [⟨isActive, false, false, [], hasOnDispose, .plain cb⟩] }
  match step fuel (.execEff eid) st₁ with
  | some (st₂, err) => some (st₂, err, eid)
  | none => none

/-- `computed(compute)`: internal signal, inactive driver effect, a first
direct computation of the value under a pushed `currentEffect` (errors
here re-thrown to the caller), then activation. -/
def computedCtor (fuel : Nat) (st : RState) (compute : Expr) :
    Option (RState × Option Err × Nat) :=
  let p := signalCtor st .undef
  let isid := p.2
  let eid := p.1.effects.length
  let st₂ := { p.1 with effects :=
    p.1.effects ++ [⟨false, false, false, [], false, .comp compute isid⟩] }
  match step fuel (.execEff eid) st₂ with
  | none => none
  | some (st₃, some err) => some (st₃, some err, isid)
  | some (st₃, none) =>
    let prev := st₃.currentEffect
    let st₄ := { st₃ with currentEffect := some eid }
    match evalExpr st₄ compute with
    | (st₅, .error e) => some ({ st₅ with currentEffect := prev }, some e, isid)
    | (st₅, .ok v) =>
      let st₆ := storeValue st₅ isid v
      let st₇ := { st₆ with currentEffect := prev }
      some (updateEff st₇ eid (fun e => { e with isActive := true }), none, isid)

/-- First-occurrence deduplication, the contents of `new Set(deps)`. -/
def dedupList (l : List Nat) : List Nat := l.foldl insertD []

/-- `watch(cb, deps)`: inactive watcher-flagged effect, subscription set
replaced wholesale by the frozen copy of `deps`, each listed signal's
dependents linked back (the mirrored `subs.add` silently rejected by the
frozen set), then activation. -/
def watchCtor (fuel : Nat) (st : RState) (cb : Cmd) (deps : List Nat) :
    Option (RState × Option Err × Nat) :=
  match effectCtor fuel st cb false false with
  | none => none
  | some (st₁, some err, eid) => some (st₁, some err, eid)
  | some (st₁, none, eid) =>
    let st₂ := updateEff st₁ eid (fun e => { e with isWatcher := true })
    let fz := dedupList deps
    let st₃ := updateEff st₂ eid (fun e => { e with subs := fz, subsFrozen := true })
    let st₄ := fz.foldl
      (fun acc d =>
        effSubsAdd (updateSig acc d (fun s => { s with deps := insertD s.deps eid })) eid d)
      st₃
    some (updateEff st₄ eid (fun e => { e with isActive := true }), none, eid)

/-- `dispose()`: for each subscription delete the back edge and the
subscription itself (the latter a silent no-op on a frozen set), then
fire `onDispose` when present. -/
def disposeEff (st : RState) (eid : Nat) : RState :=
  let eff := effAt st eid
  let st₁ := eff.subs.foldl
    (fun acc s => updateSig acc s (fun sg => { sg with deps := sg.deps.filter (· ≠ eid) })) st
  let st₂ := updateEff st₁ eid (fun e => if e.subsFrozen then e else { e with subs := [] })
  if eff.hasOnDispose then { st₂ with disposeFires := eid :: st₂.disposeFires } else st₂

/-- Direct assignment to the public `isActive` flag. -/
def setIsActive (st : RState) (eid : Nat) (b : Bool) : RState :=
  updateEff st eid (fun e => { e with isActive := b })

/-- The runtime state at module load. -/
def initState : RState := ⟨[], [], none, false, [], 0, [], [], 0, []⟩

/-- Number of callback runs of an effect recorded so far. -/
def cbCount (st : RState) (eid : Nat) : Nat := st.cbRuns.count eid

/-- Number of `exec()` invocations of an effect recorded so far. -/
def execCount (st : RState) (eid : Nat) : Nat := st.execCalls.count eid

/-- A newest-first log grew: the old log is a suffix of the new one. -/
def logGrows (old new' : List Nat) : Prop := ∃ t, new' = t ++ old

/-- An append-only list grew: the old list is a prefix of the new one. -/
def listGrows (old new' : List Nat) : Prop := ∃ t, old ++ t = new'

/-! ## Preservation facts for the primitive (non recursive) operations -/

/-- The fields an operation that only edits dependency edges leaves
untouched: every module-level global and every ghost log. -/
def globalsEq (a b : RState) : Prop :=
  a.currentEffect = b.currentEffect ∧ a.isInBatch = b.isInBatch ∧
  a.batchDeps = b.batchDeps ∧ a.recursionLevel = b.recursionLevel ∧
  a.execCalls = b.execCalls ∧ a.cbRuns = b.cbRuns ∧
  a.guardFires = b.guardFires ∧ a.disposeFires = b.disposeFires

/-! ## The core execution invariants, by one induction over the fuel -/

/-- Relations between a state and any state reachable from it by one
runtime call: the `currentEffect` pointer is restored, the ghost logs
only grow, the guard-fire count only grows, the recursion counter is
restored whenever the guard never fired during the call, and once inside
a batch the flag stays set and the pending set only grows. -/
structure StepInv (a b : RState) : Prop where
  ce : b.currentEffect = a.currentEffect
  ec : logGrows a.execCalls b.execCalls
  cr : logGrows a.cbRuns b.cbRuns
  gf : a.guardFires ≤ b.guardFires
  lvl : b.guardFires = a.guardFires → b.recursionLevel = a.recursionLevel
  bt : a.isInBatch = true → b.isInBatch = true ∧ listGrows a.batchDeps b.batchDeps

/-! ## Concrete scenarios used by witnesses and counterexamples -/

set_option maxRecDepth 1000000

/-- One signal holding `1`, one active effect reading it. -/
def watched1 : RState :=
  ((effectCtor 5 ((signalCtor initState (.num 1)).1) (.readS 0) false true).getD
    (initState, none, 0)).1

/-- The same state with the batch flag raised. -/
def watched1Batch : RState := { watched1 with isInBatch := true }

/-- A minimal feedback loop: an effect that reads and rewrites (with a
changed value) the very signal it depends on, started by its own
construction. -/
def feedbackSetup : Option (RState × Option Err × Nat) :=
  effectCtor 600 ((signalCtor initState (.num 0)).1) (.incS 0) false true

/-- A signal holding `+0` and a computed mirroring it. -/
def plusZeroComputed : RState :=
  ((computedCtor 20 ((signalCtor initState (.num 0)).1) (.readS 0)).getD
    (initState, none, 0)).1

/-- The run writing `-0` into the source of `plusZeroComputed`. -/
def minusZeroRun : Option (RState × Option Err) :=
  step 20 (.setVal 0 .negZero) plusZeroComputed

/-- A computed whose derivation reads a signal and throws when the value
turns negative; built over the initial value `1`. -/
def throwingComputed : RState :=
  ((computedCtor 20 ((signalCtor initState (.num 1)).1) (.throwIfNeg 0)).getD
    (initState, none, 0)).1

/-- `throwingComputed` with the source silently put to `-1`, so that the
next recomputation throws. -/
def throwingComputedNeg : RState := storeValue throwingComputed 0 (.num (-1))

/-- Two string signals `"a"` and `"b"`. -/
def twoStrSignals : RState :=
  (signalCtor (signalCtor initState (.str "a")).1 (.str "b")).1

/-- A computed concatenating the two string signals. -/
def pairComputed : RState :=
  ((computedCtor 30 twoStrSignals (.addE (.readS 0) (.readS 1))).getD
    (initState, none, 0)).1

/-- Writing both sources of `pairComputed` inside one batch. -/
def pairBatchRun : Option (RState × Option Err) :=
  step 60 (.batchT (.seq (.writeS 0 (.str "aa")) (.writeS 1 (.str "bb")))) pairComputed

/-- A batch whose body writes a signal and then throws. -/
def throwingBatchRun : Option (RState × Option Err) :=
  step 30 (.batchT (.seq (.writeS 0 (.str "x")) .throwC)) watched1

/-- A watch whose callback reads signal 1 but whose explicit dependency
list is just signal 0, over the two string signals. -/
def watchSetupSt : RState :=
  ((watchCtor 20 twoStrSignals (.readS 1) [0]).getD (initState, none, 0)).1

/-- Writing the signal the watch callback reads but did not list. -/
def watchUnlistedRun : Option (RState × Option Err) :=
  step 30 (.setVal 1 (.str "bb")) watchSetupSt

/-- Then writing the listed dependency. -/
def watchListedRun : Option (RState × Option Err) :=
  step 30 (.setVal 0 (.str "aa")) ((watchUnlistedRun.getD (watchSetupSt, none)).1)

/-- A signal, an effect with an `onDispose` callback reading it. -/
def disposableEffect : RState :=
  ((effectCtor 5 ((signalCtor initState (.num 1)).1) (.readS 0) true true).getD
    (initState, none, 0)).1

/-- A string signal and a numeric signal, then an effect reading the
numeric one. -/
def chainedBase : RState :=
  ((effectCtor 10 ((signalCtor (signalCtor initState (.str "s")).1 (.num 0)).1)
      (.readS 1) false true).getD (initState, none, 0)).1

/-- Chained flush scenario: effect 0 reads signal 1; the watch (effect 1)
listens to signal 0 and increments signal 1 when it runs. -/
def chainedFlushSt : RState :=
  ((watchCtor 20 chainedBase (.incS 1) [0]).getD (initState, none, 0)).1

/-- The batch writing signal 0, which queues the watch; the watch's write
to signal 1 queues effect 0 during the flush itself. -/
def chainedFlushRun : Option (RState × Option Err) :=
  step 100 (.batchT (.writeS 0 (.str "ss"))) chainedFlushSt

/-- `plusZeroComputed` with `-0` silently stored in the source, so the
next recomputation derives `-0` against the stored `+0`. -/
def minusZeroStored : RState := storeValue plusZeroComputed 0 .negZero

/-- A computed whose derivation `s.value + "x"` is always `NaN`. -/
def nanComputed : RState :=
  ((computedCtor 20 ((signalCtor initState (.num 1)).1)
      (.addE (.readS 0) (.const (.str "x")))).getD (initState, none, 0)).1

/-- `nanComputed` with the source silently bumped, so the recomputation
derives `NaN` again against the stored `NaN`. -/
def nanComputedBumped : RState := storeValue nanComputed 0 (.num 2)

/-- State produced by the teardown-and-recompute of `minusZeroStored`. -/
def minusZeroRecomputeEval : RState :=
  (evalExpr (teardownSubs (execEnter
    { minusZeroStored with execCalls := 0 :: minusZeroStored.execCalls } 0) 0)
    (.readS 0)).1

/-- State produced by the teardown-and-recompute of `nanComputedBumped`. -/
def nanRecomputeEval : RState :=
  (evalExpr (teardownSubs (execEnter
    { nanComputedBumped with execCalls := 0 :: nanComputedBumped.execCalls } 0) 0)
    (.addE (.readS 0) (.const (.str "x")))).1

/-- The state of `computed(compute)` right after allocating the internal
signal and the (still inactive) driver effect, before the constructor
runs `exec()` and the initial computation. -/
def computedPre (st : RState) (compute : Expr) : RState :=
  { (signalCtor st .undef).1 with effects :=
      (signalCtor st .undef).1.effects ++
        [⟨false, false, false, [], false, .comp compute (signalCtor st .undef).2⟩] }

/-- `throwingComputedNeg` state after teardown and the throwing
recompute. -/
def throwingRecomputeEval : RState :=
  (evalExpr (teardownSubs (execEnter
    { throwingComputedNeg with execCalls := 0 :: throwingComputedNeg.execCalls } 0) 0)
    (.throwIfNeg 0)).1

/-- A single numeric signal, base state for a throwing `computed()`
construction. -/
def throwCtorBase : RState := (signalCtor initState (.num 1)).1

/-- The state after the constructor's `exec()` call on the inactive
driver of a throwing computed. -/
def throwCtorExec : RState :=
  ((step 20 (.execEff throwCtorBase.effects.length)
      (computedPre throwCtorBase .throwE)).getD (initState, none)).1

/-- A batch in progress with one pending dependent. -/
def pendingOne : RState := { watched1Batch with batchDeps := [0] }

/-- Flushing that pending set. -/
def pendingFlushRun : Option (RState × Option Err) :=
  step 20 (.flushFrom 0) pendingOne

/-! ## Small facts about the log and list growth orders -/

theorem logGrows_refl (l : List Nat) : logGrows l l := ⟨[], rfl⟩

theorem logGrows_cons (a : Nat) (l : List Nat) : logGrows l (a :: l) := ⟨[a], rfl⟩

theorem logGrows_trans {a b c : List Nat} (h₁ : logGrows a b) (h₂ : logGrows b c) :
    logGrows a c := by
  obtain ⟨t₁, rfl⟩ := h₁
  obtain ⟨t₂, rfl⟩ := h₂
  exact ⟨t₂ ++ t₁, by simp⟩

theorem logGrows_count {a b : List Nat} (h : logGrows a b) (e : Nat) :
    a.count e ≤ b.count e := by
  obtain ⟨t, rfl⟩ := h
  simp [List.count_append]

theorem listGrows_refl (l : List Nat) : listGrows l l := ⟨[], by simp⟩

theorem listGrows_trans {a b c : List Nat} (h₁ : listGrows a b) (h₂ : listGrows b c) :
    listGrows a c := by
  obtain ⟨t₁, rfl⟩ := h₁
  obtain ⟨t₂, rfl⟩ := h₂
  exact ⟨t₁ ++ t₂, by simp⟩

theorem insertD_grows (l : List Nat) (a : Nat) : listGrows l (insertD l a) := by
  unfold insertD
  split
  · exact listGrows_refl l
  · exact ⟨[a], rfl⟩

theorem foldl_insertD_grows (l : List Nat) (acc : List Nat) :
    listGrows acc (l.foldl insertD acc) := by
  induction l generalizing acc with
  | nil => exact listGrows_refl acc
  | cons x xs ih =>
    exact listGrows_trans (insertD_grows acc x) (ih (insertD acc x))

theorem mem_insertD_of_mem {l : List Nat} {x : Nat} (a : Nat) (h : x ∈ l) :
    x ∈ insertD l a := by
  unfold insertD
  split
  · exact h
  · exact List.mem_append_left _ h

theorem mem_insertD_self (l : List Nat) (a : Nat) : a ∈ insertD l a := by
  unfold insertD
  split
  · assumption
  · simp

theorem mem_foldl_insertD_of_mem_acc {acc : List Nat} {x : Nat} (l : List Nat)
    (h : x ∈ acc) : x ∈ l.foldl insertD acc := by
  induction l generalizing acc with
  | nil => exact h
  | cons y ys ih => exact ih (mem_insertD_of_mem y h)

theorem mem_foldl_insertD_of_mem {l : List Nat} {x : Nat} (acc : List Nat) (h : x ∈ l) :
    x ∈ l.foldl insertD acc := by
  induction l generalizing acc with
  | nil => cases h
  | cons y ys ih =>
    rcases List.mem_cons.mp h with rfl | hm
    · exact mem_foldl_insertD_of_mem_acc ys (mem_insertD_self acc x)
    · exact ih (insertD acc y) hm

theorem listGrows_mem {a b : List Nat} (h : listGrows a b) {x : Nat} (hx : x ∈ a) :
    x ∈ b := by
  obtain ⟨t, rfl⟩ := h
  exact List.mem_append_left _ hx

theorem listGrows_getD {a b : List Nat} (h : listGrows a b) {i : Nat}
    (hi : i < a.length) : b.getD i 0 = a.getD i 0 := by
  obtain ⟨t, rfl⟩ := h
  simp [List.getD_eq_getElem?_getD, List.getElem?_append_left hi]

theorem listGrows_length {a b : List Nat} (h : listGrows a b) : a.length ≤ b.length := by
  obtain ⟨t, rfl⟩ := h
  simp

theorem globalsEq_refl (a : RState) : globalsEq a a :=
  ⟨rfl, rfl, rfl, rfl, rfl, rfl, rfl, rfl⟩

theorem globalsEq_trans {a b c : RState} (h₁ : globalsEq a b) (h₂ : globalsEq b c) :
    globalsEq a c := by
  obtain ⟨e₁, e₂, e₃, e₄, e₅, e₆, e₇, e₈⟩ := h₁
  obtain ⟨f₁, f₂, f₃, f₄, f₅, f₆, f₇, f₈⟩ := h₂
  exact ⟨e₁.trans f₁, e₂.trans f₂, e₃.trans f₃, e₄.trans f₄,
         e₅.trans f₅, e₆.trans f₆, e₇.trans f₇, e₈.trans f₈⟩

theorem updateSig_globalsEq (st : RState) (sid : Nat) (f : SignalImpl → SignalImpl) :
    globalsEq st (updateSig st sid f) := globalsEq_refl _

theorem updateEff_globalsEq (st : RState) (eid : Nat) (f : EffectImpl → EffectImpl) :
    globalsEq st (updateEff st eid f) := globalsEq_refl _

theorem sigGet_globalsEq (st : RState) (sid : Nat) : globalsEq st (sigGet st sid).1 := by
  unfold sigGet
  cases st.currentEffect with
  | none => exact globalsEq_refl st
  | some eid =>
    simp only
    split
    · exact globalsEq_refl st
    · exact globalsEq_refl _

theorem getD_set_general {α : Type} (l : List α) (i j : Nat) (x d : α) :
    (l.set i x).getD j d =
      if i = j then (if i < l.length then x else l.getD j d) else l.getD j d := by
  simp only [List.getD_eq_getElem?_getD, List.getElem?_set]
  split
  · rename_i hij
    split
    · rfl
    · rename_i hlen
      subst hij
      rw [List.getElem?_eq_none (by omega)]
  · rfl

theorem sigAt_updateSig (st : RState) (sid x : Nat) (f : SignalImpl → SignalImpl) :
    sigAt (updateSig st sid f) x =
      if sid = x then (if sid < st.signals.length then f (sigAt st sid) else sigAt st x)
      else sigAt st x := by
  unfold sigAt updateSig
  exact getD_set_general st.signals sid x (f (st.signals.getD sid defaultSignal)) defaultSignal

theorem effAt_updateEff (st : RState) (eid x : Nat) (f : EffectImpl → EffectImpl) :
    effAt (updateEff st eid f) x =
      if eid = x then (if eid < st.effects.length then f (effAt st eid) else effAt st x)
      else effAt st x := by
  unfold effAt updateEff
  exact getD_set_general st.effects eid x (f (st.effects.getD eid defaultEffect)) defaultEffect

theorem sigValueAt_updateEff (st : RState) (eid : Nat) (f : EffectImpl → EffectImpl)
    (x : Nat) : sigValueAt (updateEff st eid f) x = sigValueAt st x := rfl

theorem effAt_updateSig (st : RState) (sid : Nat) (f : SignalImpl → SignalImpl)
    (x : Nat) : effAt (updateSig st sid f) x = effAt st x := rfl

theorem sigValueAt_updateSig_depsOnly (st : RState) (sid x : Nat)
    (f : SignalImpl → SignalImpl) (hf : ∀ s, (f s).value = s.value) :
    sigValueAt (updateSig st sid f) x = sigValueAt st x := by
  unfold sigValueAt
  rw [sigAt_updateSig]
  split
  · rename_i hx
    subst hx
    split
    · rw [hf]
    · rfl
  · rfl

theorem evalExpr_globalsEq (e : Expr) (st : RState) : globalsEq st (evalExpr st e).1 := by
  induction e generalizing st with
  | const v => exact globalsEq_refl st
  | readS sid => exact sigGet_globalsEq st sid
  | addE a b iha ihb =>
    unfold evalExpr
    split
    · rename_i st₁ err heq
      have h₁ := iha st
      rw [heq] at h₁
      exact h₁
    · rename_i st₁ va heq
      have h₁ := iha st
      rw [heq] at h₁
      split
      · rename_i st₂ err heq₂
        have h₂ := ihb st₁
        rw [heq₂] at h₂
        exact globalsEq_trans h₁ h₂
      · rename_i st₂ vb heq₂
        have h₂ := ihb st₁
        rw [heq₂] at h₂
        exact globalsEq_trans h₁ h₂
  | throwE => exact globalsEq_refl st
  | throwIfNeg sid =>
    unfold evalExpr
    dsimp only
    split
    · split
      · exact sigGet_globalsEq st sid
      · exact sigGet_globalsEq st sid
    · exact sigGet_globalsEq st sid

theorem foldl_globalsEq {α : Type} (g : RState → α → RState)
    (hg : ∀ s a, globalsEq s (g s a)) (l : List α) (st : RState) :
    globalsEq st (l.foldl g st) := by
  induction l generalizing st with
  | nil => exact globalsEq_refl st
  | cons x xs ih => exact globalsEq_trans (hg st x) (ih (g st x))

theorem teardownSubs_globalsEq (st : RState) (eid : Nat) :
    globalsEq st (teardownSubs st eid) := by
  unfold teardownSubs
  exact globalsEq_trans
    (foldl_globalsEq _ (fun s a => updateSig_globalsEq s a _) _ st)
    (updateEff_globalsEq _ eid _)

theorem sigGet_sigValueAt (st : RState) (sid x : Nat) :
    sigValueAt (sigGet st sid).1 x = sigValueAt st x := by
  unfold sigGet
  cases st.currentEffect with
  | none => rfl
  | some eid =>
    dsimp only
    split
    · rfl
    · show sigValueAt (effSubsAdd (updateSig st sid _) eid sid) x = sigValueAt st x
      unfold effSubsAdd
      rw [sigValueAt_updateEff]
      exact sigValueAt_updateSig_depsOnly st sid x
        (fun s => { s with deps := insertD s.deps eid }) (fun s => rfl)

theorem evalExpr_sigValueAt (e : Expr) (st : RState) (x : Nat) :
    sigValueAt (evalExpr st e).1 x = sigValueAt st x := by
  induction e generalizing st with
  | const v => rfl
  | readS sid => exact sigGet_sigValueAt st sid x
  | addE a b iha ihb =>
    unfold evalExpr
    split
    · rename_i st₁ err heq
      have h₁ := iha st
      rw [heq] at h₁
      exact h₁
    · rename_i st₁ va heq
      have h₁ := iha st
      rw [heq] at h₁
      split
      · rename_i st₂ err heq₂
        have h₂ := ihb st₁
        rw [heq₂] at h₂
        exact h₂.trans h₁
      · rename_i st₂ vb heq₂
        have h₂ := ihb st₁
        rw [heq₂] at h₂
        exact h₂.trans h₁
  | throwE => rfl
  | throwIfNeg sid =>
    unfold evalExpr
    dsimp only
    split
    · split
      · exact sigGet_sigValueAt st sid x
      · exact sigGet_sigValueAt st sid x
    · exact sigGet_sigValueAt st sid x

theorem teardownSubs_sigValueAt (st : RState) (eid x : Nat) :
    sigValueAt (teardownSubs st eid) x = sigValueAt st x := by
  unfold teardownSubs
  rw [sigValueAt_updateEff]
  generalize (effAt st eid).subs = l
  induction l generalizing st with
  | nil => rfl
  | cons y ys ih =>
    rw [List.foldl_cons]
    rw [ih]
    exact sigValueAt_updateSig_depsOnly st y x
      (fun sg => { sg with deps := sg.deps.filter (· ≠ eid) }) (fun s => rfl)

theorem stepInv_refl (a : RState) : StepInv a a :=
  ⟨rfl, logGrows_refl _, logGrows_refl _, le_refl _, fun _ => rfl,
   fun hb => ⟨hb, listGrows_refl _⟩⟩

theorem stepInv_trans {a b c : RState} (h₁ : StepInv a b) (h₂ : StepInv b c) :
    StepInv a c := by
  obtain ⟨ce₁, ec₁, cr₁, gf₁, lvl₁, bt₁⟩ := h₁
  obtain ⟨ce₂, ec₂, cr₂, gf₂, lvl₂, bt₂⟩ := h₂
  refine ⟨ce₂.trans ce₁, logGrows_trans ec₁ ec₂, logGrows_trans cr₁ cr₂,
    le_trans gf₁ gf₂, ?_, ?_⟩
  · intro hg
    have hb : b.guardFires = a.guardFires := le_antisymm (by omega) gf₁
    rw [lvl₂ (by omega), lvl₁ hb]
  · intro hb
    obtain ⟨hb₁, hg₁⟩ := bt₁ hb
    obtain ⟨hb₂, hg₂⟩ := bt₂ hb₁
    exact ⟨hb₂, listGrows_trans hg₁ hg₂⟩

theorem stepInv_of_globalsEq {a b : RState} (h : globalsEq a b) : StepInv a b := by
  obtain ⟨e₁, e₂, e₃, e₄, e₅, e₆, e₇, e₈⟩ := h
  refine ⟨e₁.symm, ?_, ?_, ?_, ?_, ?_⟩
  · rw [e₅]; exact logGrows_refl _
  · rw [e₆]; exact logGrows_refl _
  · rw [e₇]
  · intro _; rw [e₄]
  · intro hb; rw [← e₂]; exact ⟨hb, by rw [e₃]; exact listGrows_refl _⟩

/-- The `finally` wrapping of an active `exec()` body: entering pushed
`currentEffect`, incremented the counter and logged, the body satisfied
the invariant, and the exit pops both. -/
theorem stepInv_execWrap {st st₂ : RState} (eid : Nat)
    (h : StepInv (execEnter { st with execCalls := eid :: st.execCalls } eid) st₂) :
    StepInv st (execExit st.currentEffect st₂) := by
  obtain ⟨ce, ec, cr, gf, lvl, bt⟩ := h
  refine ⟨rfl, ?_, ?_, ?_, ?_, ?_⟩
  · exact logGrows_trans (logGrows_cons eid st.execCalls) ec
  · exact logGrows_trans (logGrows_cons eid st.cbRuns) cr
  · exact gf
  · intro hg
    have := lvl hg
    simp only [execEnter] at this
    simp only [execExit, this]
    omega
  · intro hb
    obtain ⟨hb₂, hg₂⟩ := bt hb
    exact ⟨hb₂, hg₂⟩

/-- The main invariant: any completed runtime call satisfies `StepInv`. -/
theorem step_inv (n : Nat) : ∀ (t : RTask) (st st' : RState) (err : Option Err),
    step n t st = some (st', err) → StepInv st st' := by
  induction n with
  | zero =>
    intro t st st' err h
    simp [step] at h
  | succ n ih =>
    intro t st st' err h
    cases t with
    | runCmd c =>
      cases c with
      | skip =>
        simp only [step, Option.some.injEq, Prod.mk.injEq] at h
        obtain ⟨rfl, rfl⟩ := h
        exact stepInv_refl st
      | seq a b =>
        simp only [step] at h
        split at h
        · rename_i st₁ heq
          exact stepInv_trans (ih _ _ _ _ heq) (ih _ _ _ _ h)
        · rename_i other hne
          cases hsa : step n (.runCmd a) st with
          | none => rw [hsa] at h; simp at h
          | some p =>
            rw [hsa] at h
            obtain ⟨st₁, e₁⟩ := p
            cases e₁ with
            | none => exact absurd hsa (by rw [hsa] at hne; exact fun hh => hne st₁ rfl)
            | some e =>
              simp only [Option.some.injEq, Prod.mk.injEq] at h
              obtain ⟨rfl, rfl⟩ := h
              exact ih _ _ _ _ hsa
      | readS sid =>
        simp only [step, Option.some.injEq, Prod.mk.injEq] at h
        obtain ⟨rfl, rfl⟩ := h
        exact stepInv_of_globalsEq (sigGet_globalsEq st sid)
      | writeS sid v =>
        simp only [step] at h
        exact ih _ _ _ _ h
      | incS sid =>
        simp only [step] at h
        exact stepInv_trans
          (stepInv_of_globalsEq (sigGet_globalsEq st sid)) (ih _ _ _ _ h)
      | throwC =>
        simp only [step, Option.some.injEq, Prod.mk.injEq] at h
        obtain ⟨rfl, rfl⟩ := h
        exact stepInv_refl st
      | batchC body =>
        simp only [step] at h
        exact ih _ _ _ _ h
    | execEff eid =>
      simp only [step] at h
      split at h
      · -- recursion guard fires
        simp only [Option.some.injEq, Prod.mk.injEq] at h
        obtain ⟨rfl, rfl⟩ := h
        exact ⟨rfl, logGrows_cons eid st.execCalls, logGrows_refl _,
          Nat.le_succ _, fun hg => absurd hg (by simp), fun hb => ⟨hb, listGrows_refl _⟩⟩
      · split at h
        · -- active
          split at h
          · -- plain callback
            rename_i cb hkind
            split at h
            · rename_i st₂ err₂ hbody
              simp only [Option.some.injEq, Prod.mk.injEq] at h
              obtain ⟨rfl, rfl⟩ := h
              exact stepInv_execWrap eid (ih _ _ _ _ hbody)
            · simp at h
          · -- computed recurring body
            rename_i compute isid hkind
            split at h
            · -- compute threw: caught
              rename_i st₃ err₃ heval
              simp only [Option.some.injEq, Prod.mk.injEq] at h
              obtain ⟨rfl, rfl⟩ := h
              refine stepInv_execWrap eid ?_
              refine stepInv_of_globalsEq (globalsEq_trans (teardownSubs_globalsEq _ eid) ?_)
              have := evalExpr_globalsEq compute (teardownSubs (execEnter { st with execCalls := eid :: st.execCalls } eid) eid)
              rw [heval] at this
              exact this
            · rename_i st₃ nv heval
              have hpre : globalsEq (execEnter { st with execCalls := eid :: st.execCalls } eid) st₃ := by
                refine globalsEq_trans (teardownSubs_globalsEq _ eid) ?_
                have := evalExpr_globalsEq compute (teardownSubs (execEnter { st with execCalls := eid :: st.execCalls } eid) eid)
                rw [heval] at this
                exact this
              split at h
              · -- strict equality: no assignment
                simp only [Option.some.injEq, Prod.mk.injEq] at h
                obtain ⟨rfl, rfl⟩ := h
                exact stepInv_execWrap eid (stepInv_of_globalsEq hpre)
              · -- assignment through the setter (errors swallowed)
                split at h
                · rename_i st₄ err₄ hset
                  simp only [Option.some.injEq, Prod.mk.injEq] at h
                  obtain ⟨rfl, rfl⟩ := h
                  exact stepInv_execWrap eid
                    (stepInv_trans (stepInv_of_globalsEq hpre) (ih _ _ _ _ hset))
                · simp at h
        · -- inactive
          simp only [Option.some.injEq, Prod.mk.injEq] at h
          obtain ⟨rfl, rfl⟩ := h
          exact ⟨rfl, logGrows_cons eid st.execCalls, logGrows_refl _, le_refl _,
            fun _ => rfl, fun hb => ⟨hb, listGrows_refl _⟩⟩
    | execList l =>
      cases l with
      | nil =>
        simp only [step, Option.some.injEq, Prod.mk.injEq] at h
        obtain ⟨rfl, rfl⟩ := h
        exact stepInv_refl st
      | cons e rest =>
        simp only [step] at h
        split at h
        · rename_i st₁ heq
          exact stepInv_trans (ih _ _ _ _ heq) (ih _ _ _ _ h)
        · rename_i other hne
          cases hse : step n (.execEff e) st with
          | none => rw [hse] at h; simp at h
          | some p =>
            rw [hse] at h
            obtain ⟨st₁, e₁⟩ := p
            cases e₁ with
            | none => exact absurd hse (by rw [hse] at hne; exact fun hh => hne st₁ rfl)
            | some e₂ =>
              simp only [Option.some.injEq, Prod.mk.injEq] at h
              obtain ⟨rfl, rfl⟩ := h
              exact ih _ _ _ _ hse
    | setVal sid v =>
      simp only [step] at h
      split at h
      · -- Object.is equal: no-op
        simp only [Option.some.injEq, Prod.mk.injEq] at h
        obtain ⟨rfl, rfl⟩ := h
        exact stepInv_refl st
      · split at h
        · -- inside a batch: queue
          simp only [Option.some.injEq, Prod.mk.injEq] at h
          obtain ⟨rfl, rfl⟩ := h
          rename_i hneq hbatch
          refine ⟨rfl, logGrows_refl _, logGrows_refl _, le_refl _, fun _ => rfl, ?_⟩
          intro hb
          constructor
          · exact hbatch
          · exact foldl_insertD_grows _ _
        · -- outside a batch: run the dependents
          exact stepInv_trans
            (stepInv_of_globalsEq (updateSig_globalsEq st sid _)) (ih _ _ _ _ h)
    | flushFrom i =>
      simp only [step] at h
      split at h
      · split at h
        · rename_i st₁ heq
          exact stepInv_trans (ih _ _ _ _ heq) (ih _ _ _ _ h)
        · rename_i other hne
          cases hse : step n (.execEff (st.batchDeps.getD i 0)) st with
          | none => rw [hse] at h; simp at h
          | some p =>
            rw [hse] at h
            obtain ⟨st₁, e₁⟩ := p
            cases e₁ with
            | none => exact absurd hse (by rw [hse] at hne; exact fun hh => hne st₁ rfl)
            | some e₂ =>
              simp only [Option.some.injEq, Prod.mk.injEq] at h
              obtain ⟨rfl, rfl⟩ := h
              exact ih _ _ _ _ hse
      · simp only [Option.some.injEq, Prod.mk.injEq] at h
        obtain ⟨rfl, rfl⟩ := h
        exact stepInv_refl st
    | batchT body =>
      simp only [step] at h
      split at h
      · -- nested batch: just the body
        exact ih _ _ _ _ h
      · rename_i hnb
        have hnb' : st.isInBatch = false := by
          cases hbv : st.isInBatch with
          | false => rfl
          | true => exact absurd hbv hnb
        split at h
        · -- body succeeded, flush
          rename_i st₂ hbody
          have inv₁ : StepInv { st with isInBatch := true } st₂ := ih _ _ _ _ hbody
          split at h
          · rename_i st₃ hflush
            have inv₂ : StepInv { st with isInBatch := true } st₃ :=
              stepInv_trans inv₁ (ih _ _ _ _ hflush)
            simp only [Option.some.injEq, Prod.mk.injEq] at h
            obtain ⟨rfl, rfl⟩ := h
            obtain ⟨ce, ec, cr, gf, lvl, bt⟩ := inv₂
            exact ⟨ce, ec, cr, gf, fun hg => lvl hg,
              fun hb => absurd hb (by rw [hnb']; simp)⟩
          · rename_i other hne
            cases hsf : step n (.flushFrom 0) st₂ with
            | none => rw [hsf] at h; simp at h
            | some p =>
              rw [hsf] at h
              obtain ⟨st₃, e₃⟩ := p
              cases e₃ with
              | none => exact absurd hsf (by rw [hsf] at hne; exact fun hh => hne st₃ rfl)
              | some e₄ =>
                simp only [Option.some.injEq, Prod.mk.injEq] at h
                obtain ⟨rfl, rfl⟩ := h
                have inv₂ : StepInv { st with isInBatch := true } st₃ :=
                  stepInv_trans inv₁ (ih _ _ _ _ hsf)
                obtain ⟨ce, ec, cr, gf, lvl, bt⟩ := inv₂
                exact ⟨ce, ec, cr, gf, fun hg => lvl hg,
                  fun hb => absurd hb (by rw [hnb']; simp)⟩
        · rename_i other hne
          cases hsb : step n (.runCmd body) { st with isInBatch := true } with
          | none => rw [hsb] at h; simp at h
          | some p =>
            rw [hsb] at h
            obtain ⟨st₂, e₂⟩ := p
            cases e₂ with
            | none => exact absurd hsb (by rw [hsb] at hne; exact fun hh => hne st₂ rfl)
            | some e₃ =>
              simp only [Option.some.injEq, Prod.mk.injEq] at h
              obtain ⟨rfl, rfl⟩ := h
              have inv₁ : StepInv { st with isInBatch := true } st₂ := ih _ _ _ _ hsb
              obtain ⟨ce, ec, cr, gf, lvl, bt⟩ := inv₁
              exact ⟨ce, ec, cr, gf, fun hg => lvl hg,
                fun hb => absurd hb (by rw [hnb']; simp)⟩

/-- Every completed `exec()` call records its invocation: the new
`execCalls` log extends `eid` consed onto the old one. -/
theorem execEff_logs (n : Nat) (eid : Nat) (st st' : RState) (err : Option Err)
    (h : step n (.execEff eid) st = some (st', err)) :
    logGrows (eid :: st.execCalls) st'.execCalls := by
  cases n with
  | zero => simp [step] at h
  | succ n =>
    simp only [step] at h
    split at h
    · simp only [Option.some.injEq, Prod.mk.injEq] at h
      obtain ⟨rfl, rfl⟩ := h
      exact logGrows_refl _
    · split at h
      · split at h
        · rename_i cb hkind
          split at h
          · rename_i st₂ err₂ hbody
            simp only [Option.some.injEq, Prod.mk.injEq] at h
            obtain ⟨rfl, rfl⟩ := h
            exact (step_inv n _ _ _ _ hbody).ec
          · simp at h
        · rename_i compute isid hkind
          split at h
          · rename_i st₃ err₃ heval
            simp only [Option.some.injEq, Prod.mk.injEq] at h
            obtain ⟨rfl, rfl⟩ := h
            have g : globalsEq (execEnter { st with execCalls := eid :: st.execCalls } eid) st₃ := by
              refine globalsEq_trans (teardownSubs_globalsEq _ eid) ?_
              have := evalExpr_globalsEq compute
                (teardownSubs (execEnter { st with execCalls := eid :: st.execCalls } eid) eid)
              rw [heval] at this
              exact this
            rw [show (execExit st.currentEffect st₃).execCalls = st₃.execCalls from rfl,
                ← g.2.2.2.2.1]
            exact logGrows_refl _
          · rename_i st₃ nv heval
            have g : globalsEq (execEnter { st with execCalls := eid :: st.execCalls } eid) st₃ := by
              refine globalsEq_trans (teardownSubs_globalsEq _ eid) ?_
              have := evalExpr_globalsEq compute
                (teardownSubs (execEnter { st with execCalls := eid :: st.execCalls } eid) eid)
              rw [heval] at this
              exact this
            split at h
            · simp only [Option.some.injEq, Prod.mk.injEq] at h
              obtain ⟨rfl, rfl⟩ := h
              rw [show (execExit st.currentEffect st₃).execCalls = st₃.execCalls from rfl,
                  ← g.2.2.2.2.1]
              exact logGrows_refl _
            · split at h
              · rename_i st₄ err₄ hset
                simp only [Option.some.injEq, Prod.mk.injEq] at h
                obtain ⟨rfl, rfl⟩ := h
                rw [show (execExit st.currentEffect st₄).execCalls = st₄.execCalls from rfl]
                have h₄ := (step_inv n _ _ _ _ hset).ec
                rw [← g.2.2.2.2.1] at h₄
                exact h₄
              · simp at h
      · simp only [Option.some.injEq, Prod.mk.injEq] at h
        obtain ⟨rfl, rfl⟩ := h
        exact logGrows_refl _

/-- A completed dependents walk (`deps.forEach(e => e.exec())`) invokes
every listed effect at least once. -/
theorem execList_runs (n : Nat) : ∀ (l : List Nat) (st st' : RState),
    step n (.execList l) st = some (st', none) →
    ∀ e ∈ l, st.execCalls.count e < st'.execCalls.count e := by
  induction n with
  | zero =>
    intro l st st' h
    simp [step] at h
  | succ n ih =>
    intro l st st' h e he
    cases l with
    | nil => cases he
    | cons e₁ rest =>
      simp only [step] at h
      split at h
      · rename_i st₁ heq
        rcases List.mem_cons.mp he with rfl | hmem
        · have hlog := execEff_logs n e st st₁ none heq
          have h₁ : st.execCalls.count e < st₁.execCalls.count e := by
            have := logGrows_count hlog e
            simp [List.count_cons] at this
            omega
          have h₂ := logGrows_count (step_inv n _ _ _ _ h).ec e
          omega
        · have h₁ := logGrows_count (step_inv n _ _ _ _ heq).ec e
          have h₂ := ih rest st₁ st' h e hmem
          omega
      · rename_i other hne
        cases hse : step n (.execEff e₁) st with
        | none => rw [hse] at h; simp at h
        | some p =>
          rw [hse] at h
          obtain ⟨st₁, e₂⟩ := p
          cases e₂ with
          | none => exact absurd hse (by rw [hse] at hne; exact fun hh => hne st₁ rfl)
          | some e₃ => simp at h

/-! ## Facts about the stored value after a direct store -/

theorem sigValueAt_storeValue (st : RState) (sid : Nat) (v : Val)
    (hs : sid < st.signals.length) : sigValueAt (storeValue st sid v) sid = v := by
  unfold sigValueAt storeValue
  rw [sigAt_updateSig]
  simp [hs]

/-! ## Claim theorems -/

/-- C1: writing a value that equals the stored one under `Object.is` is a
complete no-op (unchanged state, no dependent invoked); writing a value
that differs stores it and then either queues every current dependent in
the pending set (inside a batch, with no callback running) or invokes
`exec()` on every current dependent (outside a batch). -/
theorem claim1_set_value_equality_policy (n : Nat) (st : RState) (sid : Nat) (v : Val)
    (hs : sid < st.signals.length) :
    (objectIs v (sigValueAt st sid) = true →
      step (n + 1) (.setVal sid v) st = some (st, none)) ∧
    (objectIs v (sigValueAt st sid) = false → st.isInBatch = true →
      step (n + 1) (.setVal sid v) st =
        some (addBatchDeps (storeValue st sid v) (sigDepsAt st sid), none) ∧
      sigValueAt (addBatchDeps (storeValue st sid v) (sigDepsAt st sid)) sid = v ∧
      (addBatchDeps (storeValue st sid v) (sigDepsAt st sid)).cbRuns = st.cbRuns ∧
      ∀ e ∈ sigDepsAt st sid,
        e ∈ (addBatchDeps (storeValue st sid v) (sigDepsAt st sid)).batchDeps) ∧
    (objectIs v (sigValueAt st sid) = false → st.isInBatch = false →
      step (n + 1) (.setVal sid v) st =
        step n (.execList (sigDepsAt st sid)) (storeValue st sid v) ∧
      ∀ st', step (n + 1) (.setVal sid v) st = some (st', none) →
        ∀ e ∈ sigDepsAt st sid, st.execCalls.count e < st'.execCalls.count e) := by
  refine ⟨?_, ?_, ?_⟩
  · intro hobj
    unfold sigValueAt at hobj
    simp [step, hobj]
  · intro hobj hb
    unfold sigValueAt at hobj
    have heq : step (n + 1) (.setVal sid v) st =
        some (addBatchDeps (storeValue st sid v) (sigDepsAt st sid), none) := by
      simp only [step, hobj]
      have hb' : (storeValue st sid v).isInBatch = true := hb
      simp only [Bool.false_eq_true, if_false, hb', if_true]
      rfl
    refine ⟨heq, ?_, rfl, ?_⟩
    · show sigValueAt (storeValue st sid v) sid = v
      exact sigValueAt_storeValue st sid v hs
    · intro e he
      exact mem_foldl_insertD_of_mem _ he
  · intro hobj hnb
    unfold sigValueAt at hobj
    have heq : step (n + 1) (.setVal sid v) st =
        step n (.execList (sigDepsAt st sid)) (storeValue st sid v) := by
      simp only [step, hobj]
      have hb' : (storeValue st sid v).isInBatch = false := hnb
      simp only [Bool.false_eq_true, if_false, hb']
      rfl
    refine ⟨heq, ?_⟩
    intro st' hrun e he
    rw [heq] at hrun
    have := execList_runs n (sigDepsAt st sid) (storeValue st sid v) st' hrun e he
    exact this

/-- Witness for C1 at a concrete state: an equal write is the identity,
and a differing write inside a batch queues the dependent effect. -/
theorem claim1_witness :
    step 6 (.setVal 0 (.num 1)) watched1 = some (watched1, none) ∧
    step 6 (.setVal 0 (.str "x")) watched1Batch =
      some (addBatchDeps (storeValue watched1Batch 0 (.str "x"))
        (sigDepsAt watched1Batch 0), none) ∧
    ∀ e ∈ sigDepsAt watched1Batch 0,
      e ∈ (addBatchDeps (storeValue watched1Batch 0 (.str "x"))
        (sigDepsAt watched1Batch 0)).batchDeps := by
  refine ⟨?_, ?_, ?_⟩
  · exact (claim1_set_value_equality_policy 5 watched1 0 (.num 1) (by decide)).1 (by decide)
  · exact (((claim1_set_value_equality_policy 5 watched1Batch 0 (.str "x")
      (by decide)).2.1) (by decide) (by decide)).1
  · exact (((claim1_set_value_equality_policy 5 watched1Batch 0 (.str "x")
      (by decide)).2.1) (by decide) (by decide)).2.2.2

/-- C5: entering `execute` with the depth counter at or above the fixed
threshold 100 resets the counter to 0 and throws a `RecursionError`
carrying the depth reached; and the minimal feedback loop — an effect
that writes, inside its own body, the signal it also reads — ends
deterministically with `RecursionError 100`. -/
theorem claim5_recursion_guard (n : Nat) (st : RState) (eid : Nat)
    (hr : maxRecursionLevel ≤ st.recursionLevel) :
    step (n + 1) (.execEff eid) st =
      some ({ st with execCalls := eid :: st.execCalls, recursionLevel := 0,
                      guardFires := st.guardFires + 1 },
            some (.recursionError st.recursionLevel)) ∧
    feedbackSetup.map (fun r => r.2.1) = some (some (.recursionError 100)) := by
  constructor
  · simp only [step]
    split
    · rfl
    · rename_i hcond
      exact absurd hr hcond
  · decide

/-- Witness for C5: the guard theorem applied at a concrete state whose
counter already sits at the threshold. -/
theorem claim5_witness :
    step 1 (.execEff 0) { initState with recursionLevel := 100 } =
      some ({ initState with recursionLevel := 0, execCalls := [0], guardFires := 1 },
            some (.recursionError 100)) := by
  exact (claim5_recursion_guard 0 { initState with recursionLevel := 100 } 0
    (by decide)).1

/-- C4 (amended): a completed `execute` call always restores the
`currentComputation` pointer; the recursion counter returns to its
pre-call value on every exit on which the recursion guard did not fire
during the call (in it or in any nested execution).  When the guard does
fire, the counter is reset to 0 and each unwinding frame still
decrements it, so it can end below the pre-call value. -/
theorem claim4_exec_restores (n : Nat) (eid : Nat) (st st' : RState) (err : Option Err)
    (h : step n (.execEff eid) st = some (st', err)) :
    st'.currentEffect = st.currentEffect ∧
    (st'.guardFires = st.guardFires → st'.recursionLevel = st.recursionLevel) := by
  have hi := step_inv n _ _ _ _ h
  exact ⟨hi.ce, hi.lvl⟩

/-- C4 counterexample: the feedback effect's outermost `execute` exits
with the `RecursionError` raised by its nested retrigger chain — an
exception emerging from its callback — yet the recursion counter ends at
`-100`, not its pre-call value `0`; the pointer, by contrast, is
restored. -/
theorem claim4_counterexample :
    feedbackSetup.map (fun r => (r.1.recursionLevel, r.1.currentEffect, r.2.1)) =
      some (-100, none, some (.recursionError 100)) ∧ (-100 : Int) ≠ 0 :=
  ⟨by decide, by decide⟩

/-- Witness for C4 at a concrete non-throwing execution. -/
theorem claim4_witness :
    ((step 6 (.execEff 0) watched1).getD (watched1, none)).1.currentEffect =
      watched1.currentEffect ∧
    (((step 6 (.execEff 0) watched1).getD (watched1, none)).1.guardFires =
        watched1.guardFires →
      ((step 6 (.execEff 0) watched1).getD (watched1, none)).1.recursionLevel =
        watched1.recursionLevel) := by
  have h : step 6 (.execEff 0) watched1 =
      some (((step 6 (.execEff 0) watched1).getD (watched1, none)).1,
            ((step 6 (.execEff 0) watched1).getD (watched1, none)).2) := by decide
  exact claim4_exec_restores 6 0 watched1 _ _ h

/-- C2 (amended): a triggered recomputation compares the new result to
the stored value with STRICT equality (`!==`), not the `Object.is`
policy: the internal signal is assigned exactly when the two differ
under `===`; the setter then applies `Object.is`, so a result changing
from `+0` to `-0` is not treated as a change at all (no assignment, no
propagation), and a result staying `NaN` reaches the setter but is
neither stored nor propagated. -/
theorem claim2_computed_guard (n : Nat) (st st₁ : RState) (eid isid : Nat)
    (compute : Expr) (nv : Val)
    (hk : (effAt st eid).kind = .comp compute isid)
    (ha : (effAt st eid).isActive = true)
    (hr : st.recursionLevel < maxRecursionLevel)
    (heval : evalExpr (teardownSubs (execEnter
        { st with execCalls := eid :: st.execCalls } eid) eid) compute =
      (st₁, .ok nv)) :
    sigValueAt st₁ isid = sigValueAt st isid ∧
    (strictEq nv (sigValueAt st₁ isid) = true →
      step (n + 2) (.execEff eid) st = some (execExit st.currentEffect st₁, none) ∧
      sigValueAt (execExit st.currentEffect st₁) isid = sigValueAt st isid ∧
      (execExit st.currentEffect st₁).cbRuns = eid :: st.cbRuns) ∧
    (strictEq nv (sigValueAt st₁ isid) = false →
      objectIs nv (sigValueAt st₁ isid) = true →
      step (n + 2) (.execEff eid) st = some (execExit st.currentEffect st₁, none) ∧
      sigValueAt (execExit st.currentEffect st₁) isid = sigValueAt st isid ∧
      (execExit st.currentEffect st₁).cbRuns = eid :: st.cbRuns) ∧
    (strictEq nv (sigValueAt st₁ isid) = false →
      step (n + 2) (.execEff eid) st =
        (step (n + 1) (.setVal isid nv) st₁).map
          (fun p => (execExit st.currentEffect p.1, none))) := by
  have hr' : ¬ (maxRecursionLevel ≤
      ({ st with execCalls := eid :: st.execCalls } : RState).recursionLevel) :=
    not_le.mpr hr
  have ha' : (effAt { st with execCalls := eid :: st.execCalls } eid).isActive = true := ha
  have hk' : (effAt { st with execCalls := eid :: st.execCalls } eid).kind =
      .comp compute isid := hk
  have hglob : globalsEq
      (execEnter { st with execCalls := eid :: st.execCalls } eid) st₁ := by
    refine globalsEq_trans (teardownSubs_globalsEq _ eid) ?_
    have := evalExpr_globalsEq compute
      (teardownSubs (execEnter { st with execCalls := eid :: st.execCalls } eid) eid)
    rw [heval] at this
    exact this
  have hval : sigValueAt st₁ isid = sigValueAt st isid := by
    have e₁ := evalExpr_sigValueAt compute
      (teardownSubs (execEnter { st with execCalls := eid :: st.execCalls } eid) eid) isid
    rw [heval] at e₁
    rw [e₁, teardownSubs_sigValueAt]
    rfl
  have hcb : st₁.cbRuns = eid :: st.cbRuns := by
    rw [← hglob.2.2.2.2.2.1]
    rfl
  refine ⟨hval, ?_, ?_, ?_⟩
  · intro hstr
    unfold sigValueAt at hstr
    refine ⟨?_, ?_, ?_⟩
    · simp only [step, hr', if_false, ha', if_true, hk', heval, hstr]
    · show sigValueAt st₁ isid = sigValueAt st isid
      exact hval
    · show st₁.cbRuns = eid :: st.cbRuns
      exact hcb
  · intro hstr hoi
    unfold sigValueAt at hstr hoi
    refine ⟨?_, ?_, ?_⟩
    · simp only [step, hr', if_false, ha', if_true, hk', heval, hstr, hoi, ite_self]
    · show sigValueAt st₁ isid = sigValueAt st isid
      exact hval
    · show st₁.cbRuns = eid :: st.cbRuns
      exact hcb
  · intro hstr
    unfold sigValueAt at hstr
    simp only [step, hr', if_false, ha', if_true, hk', heval, hstr]
    cases hoi : objectIs nv (sigAt st₁ isid).value with
    | true => simp only [hoi, if_true, ite_self, Option.map_some']
    | false =>
      simp only [hoi, Bool.false_eq_true, if_false]
      cases hib : (storeValue st₁ isid nv).isInBatch with
      | true => simp only [hib, if_true, Option.map_some']
      | false =>
        simp only [hib, Bool.false_eq_true, if_false]
        cases hsy : step n (.execList (sigAt st₁ isid).deps) (storeValue st₁ isid nv) with
        | none => simp [hsy]
        | some p => simp [hsy]

/-- C2 counterexample: with `s = signal(+0)` and `c = computed(() =>
s.value)`, writing `-0` to `s` triggers a recomputation whose result
`-0` differs from the stored `+0` under `Object.is`, yet the internal
signal is not assigned: it still stores `+0`. -/
theorem claim2_counterexample :
    objectIs .negZero (sigValueAt plusZeroComputed 1) = false ∧
    minusZeroRun.map (fun r => (sigValueAt r.1 1, sigValueAt r.1 0, r.2)) =
      some (.num 0, .negZero, none) ∧
    Val.negZero ≠ Val.num 0 :=
  ⟨by decide, by decide, by decide⟩

/-- Witness for C2 at two concrete recomputations: a `+0`-stored
computed deriving `-0` keeps `+0` (the `===` guard), and a `NaN`-stored
computed deriving `NaN` keeps `NaN` without propagation (the setter's
`Object.is` guard). -/
theorem claim2_witness :
    (step 12 (.execEff 0) minusZeroStored).map (fun p => (sigValueAt p.1 1, p.2)) =
      some (.num 0, none) ∧
    (step 12 (.execEff 0) nanComputedBumped).map (fun p => (sigValueAt p.1 1, p.2)) =
      some (.nan, none) := by
  constructor
  · have h := claim2_computed_guard 10 minusZeroStored minusZeroRecomputeEval 0 1
      (.readS 0) .negZero (by decide) (by decide) (by decide) (by rfl)
    obtain ⟨hstep, hv, hcb⟩ := h.2.1 (by decide)
    rw [hstep]
    simp only [Option.map_some']
    rw [show sigValueAt (execExit minusZeroStored.currentEffect minusZeroRecomputeEval) 1
        = sigValueAt minusZeroStored 1 from hv]
    rw [show sigValueAt minusZeroStored 1 = Val.num 0 from by decide]
  · have h := claim2_computed_guard 10 nanComputedBumped nanRecomputeEval 0 1
      (.addE (.readS 0) (.const (.str "x"))) .nan (by decide) (by decide) (by decide)
      (by rfl)
    obtain ⟨hstep, hv, hcb⟩ := h.2.2.1 (by decide) (by decide)
    rw [hstep]
    simp only [Option.map_some']
    rw [show sigValueAt (execExit nanComputedBumped.currentEffect nanRecomputeEval) 1
        = sigValueAt nanComputedBumped 1 from hv]
    rw [show sigValueAt nanComputedBumped 1 = Val.nan from by decide]

/-- C3: an exception thrown inside a computed's recurring derivation is
caught at the derivation boundary and suppressed — the stored value is
unchanged, no error escapes and no downstream propagation happens; an
exception thrown during the initial synchronous computation inside
`computed()` is re-thrown to the caller of `computed()`. -/
theorem claim3_computed_exceptions :
    (∀ (n : Nat) (st st₁ : RState) (eid isid : Nat) (compute : Expr) (e : Err),
      (effAt st eid).kind = .comp compute isid →
      (effAt st eid).isActive = true →
      st.recursionLevel < maxRecursionLevel →
      evalExpr (teardownSubs (execEnter
          { st with execCalls := eid :: st.execCalls } eid) eid) compute =
        (st₁, .error e) →
      step (n + 1) (.execEff eid) st = some (execExit st.currentEffect st₁, none) ∧
      sigValueAt (execExit st.currentEffect st₁) isid = sigValueAt st isid ∧
      (execExit st.currentEffect st₁).cbRuns = eid :: st.cbRuns) ∧
    (∀ (fuel : Nat) (st st₃ st₅ : RState) (compute : Expr) (e : Err),
      step fuel (.execEff st.effects.length) (computedPre st compute) =
        some (st₃, none) →
      evalExpr { st₃ with currentEffect := some st.effects.length } compute =
        (st₅, .error e) →
      computedCtor fuel st compute =
        some ({ st₅ with currentEffect := st₃.currentEffect }, some e,
              st.signals.length)) := by
  constructor
  · intro n st st₁ eid isid compute e hk ha hr heval
    have hr' : ¬ (maxRecursionLevel ≤
        ({ st with execCalls := eid :: st.execCalls } : RState).recursionLevel) :=
      not_le.mpr hr
    have ha' : (effAt { st with execCalls := eid :: st.execCalls } eid).isActive =
        true := ha
    have hk' : (effAt { st with execCalls := eid :: st.execCalls } eid).kind =
        .comp compute isid := hk
    have hglob : globalsEq
        (execEnter { st with execCalls := eid :: st.execCalls } eid) st₁ := by
      refine globalsEq_trans (teardownSubs_globalsEq _ eid) ?_
      have := evalExpr_globalsEq compute
        (teardownSubs (execEnter { st with execCalls := eid :: st.execCalls } eid) eid)
      rw [heval] at this
      exact this
    refine ⟨?_, ?_, ?_⟩
    · simp only [step, hr', if_false, ha', if_true, hk', heval]
    · show sigValueAt st₁ isid = sigValueAt st isid
      have e₁ := evalExpr_sigValueAt compute
        (teardownSubs (execEnter { st with execCalls := eid :: st.execCalls } eid) eid)
        isid
      rw [heval] at e₁
      rw [e₁, teardownSubs_sigValueAt]
      rfl
    · show st₁.cbRuns = eid :: st.cbRuns
      rw [← hglob.2.2.2.2.2.1]
      rfl
  · intro fuel st st₃ st₅ compute e hexec heval
    have hconv : computedCtor fuel st compute =
        (match step fuel (.execEff st.effects.length) (computedPre st compute) with
        | none => none
        | some (st₃, some err) => some (st₃, some err, st.signals.length)
        | some (st₃, none) =>
          match evalExpr { st₃ with currentEffect := some st.effects.length } compute with
          | (st₅, .error e) =>
            some ({ st₅ with currentEffect := st₃.currentEffect }, some e,
                  st.signals.length)
          | (st₅, .ok v) =>
            some (updateEff
              { (storeValue st₅ st.signals.length v) with
                  currentEffect := st₃.currentEffect }
              st.effects.length (fun ef => { ef with isActive := true }), none,
              st.signals.length)) := rfl
    rw [hconv, hexec]
    simp only [heval]

/-- Witness for C3: the recompute of `throwingComputedNeg` throws and is
suppressed (no error, value kept), and `computed(() => { throw })`
re-throws to its caller. -/
theorem claim3_witness :
    (step 11 (.execEff 0) throwingComputedNeg =
      some (execExit throwingComputedNeg.currentEffect throwingRecomputeEval, none) ∧
     sigValueAt (execExit throwingComputedNeg.currentEffect throwingRecomputeEval) 1 =
      sigValueAt throwingComputedNeg 1) ∧
    (computedCtor 20 throwCtorBase .throwE).map (fun r => r.2.1) =
      some (some .userErr) := by
  constructor
  · have h := claim3_computed_exceptions.1 10 throwingComputedNeg
      throwingRecomputeEval 0 1 (.throwIfNeg 0) .userErr
      (by decide) (by decide) (by decide) (by rfl)
    exact ⟨h.1, h.2.1⟩
  · have h := claim3_computed_exceptions.2 20 throwCtorBase throwCtorExec
      { throwCtorExec with currentEffect := some throwCtorBase.effects.length }
      .throwE .userErr (by decide) (by rfl)
    rw [h]
    rfl

/-- C6: inside a batch a differing write stores the value and routes the
dependents into the shared pending set with no callback running; a
nested `batch` call creates no separate flush point (it only runs its
body); and in the two-signal scenario the computed reading both signals
runs exactly once at the outermost exit, observing both new values. -/
theorem claim6_batch_coalesces :
    (∀ (n : Nat) (st : RState) (sid : Nat) (v : Val),
      objectIs v (sigValueAt st sid) = false → st.isInBatch = true →
      step (n + 1) (.setVal sid v) st =
        some (addBatchDeps (storeValue st sid v) (sigDepsAt st sid), none) ∧
      (addBatchDeps (storeValue st sid v) (sigDepsAt st sid)).cbRuns = st.cbRuns ∧
      ∀ e ∈ sigDepsAt st sid,
        e ∈ (addBatchDeps (storeValue st sid v) (sigDepsAt st sid)).batchDeps) ∧
    (∀ (n : Nat) (st : RState) (body : Cmd), st.isInBatch = true →
      step (n + 1) (.batchT body) st = step n (.runCmd body) st) ∧
    pairBatchRun.map (fun r => (sigValueAt r.1 2, cbCount r.1 0, r.1.isInBatch,
      r.1.batchDeps, r.2)) = some (.str "aabb", 1, false, [], none) := by
  refine ⟨?_, ?_, by decide⟩
  · intro n st sid v hobj hb
    unfold sigValueAt at hobj
    have hb' : (storeValue st sid v).isInBatch = true := hb
    refine ⟨?_, rfl, ?_⟩
    · simp only [step, hobj, Bool.false_eq_true, if_false, hb', if_true]
      rfl
    · intro e he
      exact mem_foldl_insertD_of_mem _ he
  · intro n st body hb
    simp only [step, hb, if_true]

/-- Witness for C6: a concrete in-batch write is queued, and a nested
batch call reduces to running its body. -/
theorem claim6_witness :
    step 6 (.setVal 0 (.str "y")) watched1Batch =
      some (addBatchDeps (storeValue watched1Batch 0 (.str "y"))
        (sigDepsAt watched1Batch 0), none) ∧
    step 6 (.batchT .skip) watched1Batch = step 5 (.runCmd .skip) watched1Batch := by
  exact ⟨(claim6_batch_coalesces.1 5 watched1Batch 0 (.str "y")
      (by decide) (by decide)).1,
    claim6_batch_coalesces.2.1 5 watched1Batch .skip (by decide)⟩

/-- C7 (amended): the batch flag and pending set are reset exactly when
the outermost batch exits without an exception; when the batched
function or the flush throws, the outermost scope exits with the flag
still set (the global batch state is not reset). -/
theorem claim7_batch_state_reset :
    (∀ (n : Nat) (st st' : RState) (body : Cmd), st.isInBatch = false →
      step (n + 1) (.batchT body) st = some (st', none) →
      st'.isInBatch = false ∧ st'.batchDeps = []) ∧
    (∀ (n : Nat) (st st' : RState) (body : Cmd) (e : Err), st.isInBatch = false →
      step (n + 1) (.batchT body) st = some (st', some e) →
      st'.isInBatch = true) := by
  constructor
  · intro n st st' body hnb h
    simp only [step, hnb, Bool.false_eq_true, if_false] at h
    split at h
    · rename_i st₂ hbody
      split at h
      · rename_i st₃ hflush
        simp only [Option.some.injEq, Prod.mk.injEq] at h
        obtain ⟨h₁, -⟩ := h
        subst h₁
        exact ⟨rfl, rfl⟩
      · rename_i other hne
        cases hsf : step n (.flushFrom 0) st₂ with
        | none => rw [hsf] at h; simp at h
        | some p =>
          rw [hsf] at h
          obtain ⟨st₃, e₃⟩ := p
          cases e₃ with
          | none => exact absurd hsf (by rw [hsf] at hne; exact fun hh => hne st₃ rfl)
          | some e₄ => simp at h
    · rename_i other hne
      cases hsb : step n (.runCmd body) { st with isInBatch := true } with
      | none => rw [hsb] at h; simp at h
      | some p =>
        rw [hsb] at h
        obtain ⟨st₂, e₂⟩ := p
        cases e₂ with
        | none => exact absurd hsb (by rw [hsb] at hne; exact fun hh => hne st₂ rfl)
        | some e₃ => simp at h
  · intro n st st' body e hnb h
    simp only [step, hnb, Bool.false_eq_true, if_false] at h
    split at h
    · rename_i st₂ hbody
      split at h
      · simp at h
      · rename_i other hne
        cases hsf : step n (.flushFrom 0) st₂ with
        | none => rw [hsf] at h; simp at h
        | some p =>
          rw [hsf] at h
          obtain ⟨st₃, e₃⟩ := p
          cases e₃ with
          | none => exact absurd hsf (by rw [hsf] at hne; exact fun hh => hne st₃ rfl)
          | some e₄ =>
            simp only [Option.some.injEq, Prod.mk.injEq] at h
            obtain ⟨h₁, -⟩ := h
            subst h₁
            exact ((stepInv_trans (step_inv n _ _ _ _ hbody)
              (step_inv n _ _ _ _ hsf)).bt rfl).1
    · rename_i other hne
      cases hsb : step n (.runCmd body) { st with isInBatch := true } with
      | none => rw [hsb] at h; simp at h
      | some p =>
        rw [hsb] at h
        obtain ⟨st₂, e₂⟩ := p
        cases e₂ with
        | none => exact absurd hsb (by rw [hsb] at hne; exact fun hh => hne st₂ rfl)
        | some e₃ =>
          simp only [Option.some.injEq, Prod.mk.injEq] at h
          obtain ⟨rfl, rfl⟩ := h
          exact ((step_inv n _ _ _ _ hsb).bt rfl).1

/-- C7 counterexample: a batch whose body writes a signal and then
throws exits the outermost scope with the flag still set and the queued
dependent still pending — the batching state is not reset on that exit. -/
theorem claim7_counterexample :
    throwingBatchRun.map (fun r => (r.1.isInBatch, r.1.batchDeps, r.2)) =
      some (true, [0], some .userErr) ∧
    ¬ ((true : Bool) = false ∧ ([0] : List Nat) = []) :=
  ⟨by decide, by decide⟩

/-- Witness for C7: a concrete completed batch leaves the flag cleared
and the set empty, and a concrete throwing batch leaves the flag set. -/
theorem claim7_witness :
    (((step 10 (.batchT .skip) watched1).getD (watched1, none)).1.isInBatch = false ∧
     ((step 10 (.batchT .skip) watched1).getD (watched1, none)).1.batchDeps = []) ∧
    (throwingBatchRun.getD (watched1, none)).1.isInBatch = true := by
  constructor
  · have h : step 10 (.batchT .skip) watched1 =
        some (((step 10 (.batchT .skip) watched1).getD (watched1, none)).1, none) := by
      decide
    exact claim7_batch_state_reset.1 9 watched1 _ .skip (by decide) h
  · have h : step 30 (.batchT (.seq (.writeS 0 (.str "x")) .throwC)) watched1 =
        some ((throwingBatchRun.getD (watched1, none)).1, some .userErr) := by
      decide
    exact claim7_batch_state_reset.2 29 watched1 _
      (.seq (.writeS 0 (.str "x")) .throwC) .userErr (by decide) h

theorem effAt_append_self (st : RState) (eff : EffectImpl) :
    effAt { st with effects := st.effects ++ [eff] } st.effects.length = eff := by
  unfold effAt
  simp [List.getD_eq_getElem?_getD, List.getElem?_concat_length]

/-- Constructing an inactive effect runs no callback: the constructor
calls `exec()`, which either trips the recursion guard (before any
callback) or sees `isActive = false` and returns. -/
theorem effectCtor_inactive_cbRuns (fuel : Nat) (st st₁ : RState) (cb : Cmd)
    (od : Bool) (err : Option Err) (eid : Nat)
    (h : effectCtor fuel st cb od false = some (st₁, err, eid)) :
    st₁.cbRuns = st.cbRuns := by
  simp only [effectCtor] at h
  split at h
  · rename_i st₂ err₂ hs
    simp only [Option.some.injEq, Prod.mk.injEq] at h
    obtain ⟨h₁, -⟩ := h
    subst h₁
    cases fuel with
    | zero => simp [step] at hs
    | succ n =>
      simp only [step] at hs
      split at hs
      · simp only [Option.some.injEq, Prod.mk.injEq] at hs
        obtain ⟨h₂, -⟩ := hs
        rw [← h₂]
      · split at hs
        · rename_i hact
          simp [effAt, List.getD_eq_getElem?_getD, List.getElem?_concat_length] at hact
        · simp only [Option.some.injEq, Prod.mk.injEq] at hs
          obtain ⟨h₂, -⟩ := hs
          rw [← h₂]
  · simp at h

/-- C8: `watch(cb, deps)` never runs its callback at construction (the
callback-run log is untouched); a signal read while a watcher is the
current computation registers no edge (the getter returns the value with
the state unchanged); and in the concrete scenario the callback runs
exactly on writes to the listed signal: zero runs after writing the
unlisted-but-read signal, one run after then writing the listed one. -/
theorem claim8_watch :
    (∀ (fuel : Nat) (st st' : RState) (cb : Cmd) (deps : List Nat)
        (err : Option Err) (eid : Nat),
      watchCtor fuel st cb deps = some (st', err, eid) → st'.cbRuns = st.cbRuns) ∧
    (∀ (st : RState) (sid eid : Nat), st.currentEffect = some eid →
      (effAt st eid).isWatcher = true → sigGet st sid = (st, sigValueAt st sid)) ∧
    (watchUnlistedRun.map (fun r => (cbCount r.1 0, r.2)) = some (0, none) ∧
     watchListedRun.map (fun r => (cbCount r.1 0, r.2)) = some (1, none)) := by
  refine ⟨?_, ?_, by decide, by decide⟩
  · intro fuel st st' cb deps err eid h
    unfold watchCtor at h
    cases he : effectCtor fuel st cb false false with
    | none => rw [he] at h; simp at h
    | some p =>
      rw [he] at h
      obtain ⟨st₁, err₁, eid₁⟩ := p
      have hcb₁ : st₁.cbRuns = st.cbRuns :=
        effectCtor_inactive_cbRuns fuel st st₁ cb false err₁ eid₁ he
      cases err₁ with
      | some e =>
        simp only [Option.some.injEq, Prod.mk.injEq] at h
        obtain ⟨h₁, -⟩ := h
        subst h₁
        exact hcb₁
      | none =>
        simp only [Option.some.injEq, Prod.mk.injEq] at h
        obtain ⟨h₁, -⟩ := h
        subst h₁
        show (updateEff _ eid₁ _).cbRuns = st.cbRuns
        have hfold : ∀ (l : List Nat) (s : RState),
            (l.foldl (fun acc d => effSubsAdd
              (updateSig acc d (fun sg => { sg with deps := insertD sg.deps eid₁ }))
              eid₁ d) s).cbRuns = s.cbRuns := by
          intro l
          induction l with
          | nil => intro s; rfl
          | cons x xs ih =>
            intro s
            rw [List.foldl_cons, ih]
            rfl
        show (List.foldl (fun acc d => effSubsAdd
            (updateSig acc d (fun sg => { sg with deps := insertD sg.deps eid₁ }))
            eid₁ d)
            (updateEff (updateEff st₁ eid₁ (fun e => { e with isWatcher := true }))
              eid₁ (fun e => { e with subs := dedupList deps, subsFrozen := true }))
            (dedupList deps)).cbRuns = st.cbRuns
        rw [hfold]
        exact hcb₁
  · intro st sid eid hce hw
    unfold sigGet
    simp only [hce, hw, if_true]
    rfl

/-- Witness for C8: the concrete watch construction ran no callback, and
a getter call in that watcher's context returns the value with the state
unchanged. -/
theorem claim8_witness :
    watchSetupSt.cbRuns = twoStrSignals.cbRuns ∧
    sigGet { watchSetupSt with currentEffect := some 0 } 1 =
      ({ watchSetupSt with currentEffect := some 0 },
       sigValueAt { watchSetupSt with currentEffect := some 0 } 1) := by
  constructor
  · have h : watchCtor 20 twoStrSignals (.readS 1) [0] =
        some (watchSetupSt, none, 0) := by decide
    exact claim8_watch.1 20 twoStrSignals watchSetupSt (.readS 1) [0] none 0 h
  · exact claim8_watch.2.1 { watchSetupSt with currentEffect := some 0 } 1 0 rfl
      (by decide)

theorem sigAt_out_of_range (st : RState) (sid : Nat) (h : ¬ sid < st.signals.length) :
    sigAt st sid = defaultSignal := by
  unfold sigAt
  rw [List.getD_eq_getElem?_getD, List.getElem?_eq_none (by omega)]
  rfl

theorem effAt_out_of_range (st : RState) (eid : Nat) (h : ¬ eid < st.effects.length) :
    effAt st eid = defaultEffect := by
  unfold effAt
  rw [List.getD_eq_getElem?_getD, List.getElem?_eq_none (by omega)]
  rfl

theorem effAt_of_effects_eq {a b : RState} (h : a.effects = b.effects) (x : Nat) :
    effAt a x = effAt b x := by
  unfold effAt
  rw [h]

theorem notMem_filter_ne (l : List Nat) (eid : Nat) :
    eid ∉ l.filter (· ≠ eid) := by
  simp [List.mem_filter]

theorem removeDep_self (st : RState) (x eid : Nat) :
    eid ∉ sigDepsAt (updateSig st x
      (fun sg => { sg with deps := sg.deps.filter (· ≠ eid) })) x := by
  unfold sigDepsAt
  rw [sigAt_updateSig]
  split
  · split
    · exact notMem_filter_ne _ _
    · rename_i hlt
      rw [sigAt_out_of_range st x hlt]
      simp [defaultSignal]
  · rename_i hne
    exact absurd rfl hne

theorem removeDep_pres (st : RState) (x s eid : Nat) (h : eid ∉ sigDepsAt st s) :
    eid ∉ sigDepsAt (updateSig st x
      (fun sg => { sg with deps := sg.deps.filter (· ≠ eid) })) s := by
  unfold sigDepsAt at h ⊢
  rw [sigAt_updateSig]
  split
  · split
    · exact notMem_filter_ne _ _
    · exact h
  · exact h

theorem foldRemove_pres (eid s : Nat) (l : List Nat) : ∀ (st : RState),
    eid ∉ sigDepsAt st s →
    eid ∉ sigDepsAt (l.foldl (fun acc x => updateSig acc x
      (fun sg => { sg with deps := sg.deps.filter (· ≠ eid) })) st) s := by
  induction l with
  | nil => intro st h; exact h
  | cons y ys ih => intro st h; exact ih _ (removeDep_pres st y s eid h)

theorem foldRemove_all (eid : Nat) (l : List Nat) : ∀ (st : RState) (s : Nat), s ∈ l →
    eid ∉ sigDepsAt (l.foldl (fun acc x => updateSig acc x
      (fun sg => { sg with deps := sg.deps.filter (· ≠ eid) })) st) s := by
  induction l with
  | nil => intro st s h; cases h
  | cons y ys ih =>
    intro st s h
    rcases List.mem_cons.mp h with rfl | hm
    · exact foldRemove_pres eid s ys _ (removeDep_self st s eid)
    · exact ih _ s hm

theorem effects_foldRemove (eid : Nat) (l : List Nat) : ∀ (st : RState),
    (l.foldl (fun acc x => updateSig acc x
      (fun sg => { sg with deps := sg.deps.filter (· ≠ eid) })) st).effects =
      st.effects := by
  induction l with
  | nil => intro st; rfl
  | cons y ys ih =>
    intro st
    rw [List.foldl_cons, ih]
    rfl

theorem disposeFires_foldRemove (eid : Nat) (l : List Nat) : ∀ (st : RState),
    (l.foldl (fun acc x => updateSig acc x
      (fun sg => { sg with deps := sg.deps.filter (· ≠ eid) })) st).disposeFires =
      st.disposeFires := by
  induction l with
  | nil => intro st; rfl
  | cons y ys ih =>
    intro st
    rw [List.foldl_cons, ih]
    rfl

/-- C9 (amended): `dispose()` removes the computation from the
dependents of every signal it subscribes, and clears its own
subscription set when that set is mutable; for a watch the frozen set
silently rejects the deletions and keeps all its members, so only the
signal side of each edge is severed; `onDispose`, when present, fires
exactly once per `dispose()` call. -/
theorem claim9_dispose_teardown (st : RState) (eid : Nat) :
    (∀ s ∈ subsAt st eid, eid ∉ sigDepsAt (disposeEff st eid) s) ∧
    ((effAt st eid).subsFrozen = false → subsAt (disposeEff st eid) eid = []) ∧
    ((effAt st eid).subsFrozen = true →
      subsAt (disposeEff st eid) eid = subsAt st eid) ∧
    (disposeEff st eid).disposeFires =
      (if (effAt st eid).hasOnDispose then eid :: st.disposeFires
       else st.disposeFires) := by
  have hfold₁ : ((effAt st eid).subs.foldl (fun acc x => updateSig acc x
      (fun sg => { sg with deps := sg.deps.filter (· ≠ eid) })) st).effects =
      st.effects := effects_foldRemove eid _ st
  refine ⟨?_, ?_, ?_, ?_⟩
  · intro s hs
    show eid ∉ sigDepsAt (disposeEff st eid) s
    unfold disposeEff
    cases hd : (effAt st eid).hasOnDispose with
    | true =>
      simp only [hd, if_true]
      exact foldRemove_all eid _ st s hs
    | false =>
      simp only [hd, Bool.false_eq_true, if_false]
      exact foldRemove_all eid _ st s hs
  · intro hfr
    have key : subsAt (updateEff ((effAt st eid).subs.foldl
        (fun acc x => updateSig acc x
          (fun sg => { sg with deps := sg.deps.filter (· ≠ eid) })) st) eid
        (fun e => if e.subsFrozen then e else { e with subs := [] })) eid = [] := by
      unfold subsAt
      rw [effAt_updateEff, if_pos rfl]
      by_cases hlt : eid < ((effAt st eid).subs.foldl
          (fun acc x => updateSig acc x
            (fun sg => { sg with deps := sg.deps.filter (· ≠ eid) })) st).effects.length
      · rw [if_pos hlt, effAt_of_effects_eq hfold₁, hfr]
        simp
      · rw [if_neg hlt, effAt_of_effects_eq hfold₁]
        rw [hfold₁] at hlt
        rw [effAt_out_of_range st eid hlt]
        rfl
    unfold disposeEff
    cases hd : (effAt st eid).hasOnDispose with
    | true =>
      simp only [hd, if_true]
      exact key
    | false =>
      simp only [hd, Bool.false_eq_true, if_false]
      exact key
  · intro hfr
    have key : subsAt (updateEff ((effAt st eid).subs.foldl
        (fun acc x => updateSig acc x
          (fun sg => { sg with deps := sg.deps.filter (· ≠ eid) })) st) eid
        (fun e => if e.subsFrozen then e else { e with subs := [] })) eid =
        subsAt st eid := by
      unfold subsAt
      rw [effAt_updateEff, if_pos rfl]
      by_cases hlt : eid < ((effAt st eid).subs.foldl
          (fun acc x => updateSig acc x
            (fun sg => { sg with deps := sg.deps.filter (· ≠ eid) })) st).effects.length
      · rw [if_pos hlt, effAt_of_effects_eq hfold₁, hfr]
        simp
      · rw [if_neg hlt, effAt_of_effects_eq hfold₁]
    unfold disposeEff
    cases hd : (effAt st eid).hasOnDispose with
    | true =>
      simp only [hd, if_true]
      exact key
    | false =>
      simp only [hd, Bool.false_eq_true, if_false]
      exact key
  · unfold disposeEff
    cases hd : (effAt st eid).hasOnDispose with
    | true =>
      simp only [hd, if_true]
      show eid :: (updateEff _ eid _).disposeFires = eid :: st.disposeFires
      rw [show (updateEff ((effAt st eid).subs.foldl (fun acc x => updateSig acc x
          (fun sg => { sg with deps := sg.deps.filter (· ≠ eid) })) st) eid
          (fun e => if e.subsFrozen then e else { e with subs := [] })).disposeFires =
          ((effAt st eid).subs.foldl (fun acc x => updateSig acc x
            (fun sg => { sg with deps := sg.deps.filter (· ≠ eid) })) st).disposeFires
        from rfl]
      rw [disposeFires_foldRemove]
    | false =>
      simp only [hd, Bool.false_eq_true, if_false]
      show (updateEff _ eid _).disposeFires = st.disposeFires
      rw [show (updateEff ((effAt st eid).subs.foldl (fun acc x => updateSig acc x
          (fun sg => { sg with deps := sg.deps.filter (· ≠ eid) })) st) eid
          (fun e => if e.subsFrozen then e else { e with subs := [] })).disposeFires =
          ((effAt st eid).subs.foldl (fun acc x => updateSig acc x
            (fun sg => { sg with deps := sg.deps.filter (· ≠ eid) })) st).disposeFires
        from rfl]
      rw [disposeFires_foldRemove]

/-- C9 counterexample: disposing the concrete watch removes it from the
signal's dependents, but its own frozen subscription set still contains
the signal — the teardown is not symmetric for a watch. -/
theorem claim9_counterexample :
    subsAt (disposeEff watchSetupSt 0) 0 = [0] ∧
    sigDepsAt (disposeEff watchSetupSt 0) 0 = [] ∧
    ([0] : List Nat) ≠ [] :=
  ⟨by decide, by decide, by decide⟩

/-- Witness for C9: a plain effect with an `onDispose` callback tears
down symmetrically and fires it once; the frozen watch keeps its
subscription set. -/
theorem claim9_witness :
    (0 ∉ sigDepsAt (disposeEff disposableEffect 0) 0) ∧
    subsAt (disposeEff disposableEffect 0) 0 = [] ∧
    (disposeEff disposableEffect 0).disposeFires =
      (if (effAt disposableEffect 0).hasOnDispose then
        0 :: disposableEffect.disposeFires else disposableEffect.disposeFires) ∧
    subsAt (disposeEff watchSetupSt 0) 0 = subsAt watchSetupSt 0 := by
  refine ⟨?_, ?_, ?_, ?_⟩
  · exact (claim9_dispose_teardown disposableEffect 0).1 0 (by decide)
  · exact (claim9_dispose_teardown disposableEffect 0).2.1 (by decide)
  · exact (claim9_dispose_teardown disposableEffect 0).2.2.2
  · exact (claim9_dispose_teardown watchSetupSt 0).2.2.1 (by decide)

/-- The flush loop visits every pending entry from its index on —
including entries appended to the pending set *during* the flush (the
`Set.forEach` semantics): on success, every element at an index the loop
still had to visit has strictly more `exec()` invocations afterwards. -/
theorem flush_processes (n : Nat) : ∀ (i : Nat) (st st' : RState),
    step n (.flushFrom i) st = some (st', none) → st.isInBatch = true →
    listGrows st.batchDeps st'.batchDeps ∧
    ∀ j, i ≤ j → j < st'.batchDeps.length →
      st.execCalls.count (st'.batchDeps.getD j 0) <
        st'.execCalls.count (st'.batchDeps.getD j 0) := by
  induction n with
  | zero =>
    intro i st st' h hb
    simp [step] at h
  | succ n ih =>
    intro i st st' h hb
    simp only [step] at h
    split at h
    · rename_i hlt
      split at h
      · rename_i st₁ heq
        have hinv₁ := step_inv n _ _ _ _ heq
        obtain ⟨hb₁, hg₁⟩ := hinv₁.bt hb
        obtain ⟨hg₂, hcounts⟩ := ih (i + 1) st₁ st' h hb₁
        have hg : listGrows st.batchDeps st'.batchDeps := listGrows_trans hg₁ hg₂
        refine ⟨hg, ?_⟩
        intro j hij hjlen
        by_cases hji : j = i
        · subst hji
          have hgetD : st'.batchDeps.getD j 0 = st.batchDeps.getD j 0 :=
            listGrows_getD hg hlt
          rw [hgetD]
          have hlog := execEff_logs n _ st st₁ none heq
          have hcnt := logGrows_count hlog (st.batchDeps.getD j 0)
          rw [List.count_cons_self] at hcnt
          have h₂ := logGrows_count (step_inv n _ _ _ _ h).ec (st.batchDeps.getD j 0)
          omega
        · have := hcounts j (by omega) hjlen
          have hmono := logGrows_count hinv₁.ec (st'.batchDeps.getD j 0)
          omega
      · rename_i other hne
        cases hse : step n (.execEff (st.batchDeps.getD i 0)) st with
        | none => rw [hse] at h; simp at h
        | some p =>
          rw [hse] at h
          obtain ⟨st₁, e₁⟩ := p
          cases e₁ with
          | none => exact absurd hse (by rw [hse] at hne; exact fun hh => hne st₁ rfl)
          | some e₂ => simp at h
    · rename_i hge
      simp only [Option.some.injEq, Prod.mk.injEq] at h
      obtain ⟨h₁, -⟩ := h
      subst h₁
      refine ⟨listGrows_refl _, ?_⟩
      intro j hij hjlen
      omega

/-- C10: during a batch flush the batch flag is still set, so a write
performed inside a flushed computation routes that write's dependents
into the same pending set instead of executing them; the flush loop
visits entries appended during the iteration, so those newly queued
computations execute within the same flush; concretely, the watch queued
by the batched write itself writes a signal during the flush, and that
signal's dependent effect also runs before the pending set is cleared. -/
theorem claim10_flush_chaining :
    (∀ (n i : Nat) (st st' : RState),
      step n (.flushFrom i) st = some (st', none) → st.isInBatch = true →
      listGrows st.batchDeps st'.batchDeps ∧
      ∀ j, i ≤ j → j < st'.batchDeps.length →
        st.execCalls.count (st'.batchDeps.getD j 0) <
          st'.execCalls.count (st'.batchDeps.getD j 0)) ∧
    (∀ (n : Nat) (st : RState) (sid : Nat) (v : Val),
      objectIs v (sigValueAt st sid) = false → st.isInBatch = true →
      step (n + 1) (.setVal sid v) st =
        some (addBatchDeps (storeValue st sid v) (sigDepsAt st sid), none) ∧
      (addBatchDeps (storeValue st sid v) (sigDepsAt st sid)).execCalls =
        st.execCalls ∧
      ∀ e ∈ sigDepsAt st sid,
        e ∈ (addBatchDeps (storeValue st sid v) (sigDepsAt st sid)).batchDeps) ∧
    chainedFlushRun.map (fun r => (cbCount r.1 0, cbCount r.1 1, r.1.batchDeps,
      r.1.isInBatch, sigValueAt r.1 1, r.2)) =
      some (2, 1, [], false, .num 1, none) := by
  refine ⟨fun n => flush_processes n, ?_, by rfl⟩
  intro n st sid v hobj hb
  unfold sigValueAt at hobj
  have hb' : (storeValue st sid v).isInBatch = true := hb
  refine ⟨?_, rfl, ?_⟩
  · simp only [step, hobj, Bool.false_eq_true, if_false, hb', if_true]
    rfl
  · intro e he
    exact mem_foldl_insertD_of_mem _ he

/-- Witness for C10: flushing the concrete one-element pending set grows
it and runs the queued effect. -/
theorem claim10_witness :
    listGrows pendingOne.batchDeps
      ((pendingFlushRun.getD (pendingOne, none)).1).batchDeps ∧
    pendingOne.execCalls.count
        (((pendingFlushRun.getD (pendingOne, none)).1).batchDeps.getD 0 0) <
      ((pendingFlushRun.getD (pendingOne, none)).1).execCalls.count
        (((pendingFlushRun.getD (pendingOne, none)).1).batchDeps.getD 0 0) := by
  have h : step 20 (.flushFrom 0) pendingOne =
      some ((pendingFlushRun.getD (pendingOne, none)).1, none) := by decide
  obtain ⟨hg, hc⟩ := claim10_flush_chaining.1 20 0 pendingOne
    ((pendingFlushRun.getD (pendingOne, none)).1) h (by decide)
  exact ⟨hg, hc 0 (le_refl 0) (by decide)⟩
